import Mathlib

/-!
Shallow embedding of the `causely` attribution engine, translated from the
repository sources:

* `src/woe_iv.py`        — the WoE/IV evaluator (`woe_iv`);
* `src/report_tables.py` — binary stacking, baseline-anchored cost binning,
  the IV ranking builder, the drill-down detail tables and the
  component-assembler percent change;
* `src/core.py`          — the key-metric percent change of
  `get_comparison_kpis`;
* `src/metrics.py`       — the dependency-resolved metric registry.

Tables are modelled as lists of row records; `pandas` column presence is
modelled by explicit boolean flags, timestamps by an integer day (both
modules immediately reduce timestamps to a date via `_to_day`), money by `ℚ`,
and the IV value (which goes through `np.log`) by `ℝ`.  Counts, groupings and
percentage computations are kept in `ℚ` so that they are executable; only the
final logarithmic step lives in `ℝ`.
-/

namespace Causely

/-! ### `src/woe_iv.py` — the WoE/IV evaluator

`woe_iv` stringifies every column (`qcut`-binned for numeric columns with
more distinct values than `bins`), groups rows of one column by value, and
for each group computes `N`, `Events` (label sum), `Non_Events = N - Events`,
the Laplace-smoothed percentage shares, `WoE = ln(pct_E / pct_NE)` and
`IV = (pct_E - pct_NE) * WoE`, summed over the groups.  A row of the input is
a (binned value, binary label) pair; the binary `0/1` target series is
modelled by `Bool`. -/

variable {α : Type} [DecidableEq α]

/-- `tmp_woe['N']` for the group of value `v`: number of rows with `x = v`. -/
def groupN (rows : List (α × Bool)) (v : α) : ℕ :=
  (rows.filter (fun r => decide (r.1 = v))).length

/-- `tmp_woe['Events']` for the group of value `v`: sum of the 0/1 labels. -/
def groupE (rows : List (α × Bool)) (v : α) : ℕ :=
  (rows.filter (fun r => decide (r.1 = v) && r.2)).length

/-- `tmp_woe['Non_Events'] = N - Events`. -/
def groupNE (rows : List (α × Bool)) (v : α) : ℕ :=
  groupN rows v - groupE rows v

/-- The distinct values of the column, one group per value
(`groupby(['Var_name', 'x'], dropna=False)`). -/
def levels (rows : List (α × Bool)) : List α :=
  (rows.map Prod.fst).dedup

/-- `Events + 0.5`, the Laplace-smoothed event count of a group. -/
def smE (rows : List (α × Bool)) (v : α) : ℚ :=
  (groupE rows v : ℚ) + 1/2

/-- `Non_Events + 0.5`, the Laplace-smoothed non-event count of a group. -/
def smNE (rows : List (α × Bool)) (v : α) : ℚ :=
  (groupNE rows v : ℚ) + 1/2

/-- `(tmp_woe['Events'] + 0.5).sum()`. -/
def totE (rows : List (α × Bool)) : ℚ :=
  ((levels rows).map (smE rows)).sum

/-- `(tmp_woe['Non_Events'] + 0.5).sum()`. -/
def totNE (rows : List (α × Bool)) : ℚ :=
  ((levels rows).map (smNE rows)).sum

/-- `PCT_of_E = (Events + 0.5) * 100 / (Events + 0.5).sum()`. -/
def pctE (rows : List (α × Bool)) (v : α) : ℚ :=
  smE rows v * 100 / totE rows

/-- `PCT_of_NE = (Non_Events + 0.5) * 100 / (Non_Events + 0.5).sum()`. -/
def pctNE (rows : List (α × Bool)) (v : α) : ℚ :=
  smNE rows v * 100 / totNE rows

/-- One summand of the IV sum:
`IV_bin = (PCT_of_E - PCT_of_NE) * ln(PCT_of_E / PCT_of_NE)`. -/
noncomputable def ivTerm (a b : ℚ) : ℝ :=
  ((a : ℝ) - (b : ℝ)) * Real.log ((a : ℝ) / (b : ℝ))

/-- `tmp_woe['IV'].sum()`: the IV of one variable, given its
(binned value, label) rows. -/
noncomputable def woeIvRows (rows : List (α × Bool)) : ℝ :=
  ((levels rows).map (fun v => ivTerm (pctE rows v) (pctNE rows v))).sum

/-- The IV of one variable given its binned column and the target series
(`pandas` aligns the two series index-wise, i.e. position-wise here). -/
noncomputable def woeIvVar (xs : List α) (ys : List Bool) : ℝ :=
  woeIvRows (xs.zip ys)

/-! #### Numeric binning (`pd.qcut`, percentile based)

`np.percentile` with the default linear interpolation on a sorted sample,
used both by the `qcut` branch of `woe_iv` and by the baseline-anchored cost
binning of `report_tables.py`. -/

/-- Linear interpolation of a sorted sample at fractional position `pos`
(`np.percentile`, `interpolation='linear'`). -/
def interpAt (s : List ℚ) (pos : ℚ) : ℚ :=
  let i : ℕ := ⌊pos⌋.toNat
  if i + 1 < s.length then s.getD i 0 + (pos - (i : ℚ)) * (s.getD (i + 1) 0 - s.getD i 0)
  else s.getD (s.length - 1) 0

/-- `np.percentile(vals, qs)` (linear interpolation): sorts the sample and
interpolates at position `q / 100 * (n - 1)` for each requested `q`. -/
def npPercentile (vals : List ℚ) (qs : List ℚ) : List ℚ :=
  let s := List.insertionSort (· ≤ ·) vals
  qs.map (fun q => interpAt s (q * ((vals.length : ℚ) - 1) / 100))

/-- `np.unique`: sorted distinct values. -/
def npUnique (l : List ℚ) : List ℚ :=
  (List.insertionSort (· ≤ ·) l).dedup

/-- The bin index of `x` for right-closed intervals with breakpoints `qs`
(and `-inf` / `+inf` outer edges): the number of breakpoints strictly below
`x`.  This is `pd.cut(x, [-inf] + qs + [inf], labels=False)`. -/
def binIndex (qs : List ℚ) (x : ℚ) : ℕ :=
  (qs.filter (fun q => decide (q < x))).length

/-- The `bins + 1` quantile probes `0, 1/bins, …, 1` (as percentages) used by
`pd.qcut(data[var], bins)`. -/
def qcutProbes (bins : ℕ) : List ℚ :=
  (List.range (bins + 1)).map (fun (i : ℕ) => 100 * (i : ℚ) / (bins : ℚ))

/-- The deduplicated quantile edges of `pd.qcut(vals, bins,
duplicates='drop')`. -/
def qcutEdges (vals : List ℚ) (bins : ℕ) : List ℚ :=
  npUnique (npPercentile vals (qcutProbes bins))

/-- A column of the `woe_iv` input table: numeric (`dtype.kind in 'bifc'`)
or already categorical. -/
inductive Column where
  | num (vals : List ℚ)
  | cat (vals : List String)
deriving DecidableEq

/-- The length of a column. -/
def colLen : Column → ℕ
  | .num v => v.length
  | .cat v => v.length

/-- The number of distinct values of a column (`len(np.unique(data[var]))`
resp. the distinct strings). -/
def colLevels : Column → ℕ
  | .num v => v.dedup.length
  | .cat v => v.dedup.length

/-- The binning/stringification step of `woe_iv` for one column: a numeric
column with more distinct values than `bins` is `qcut` into quantile
intervals (duplicate edges dropped) and the interval of each value is taken
as its (stringified) bin label; every other column is stringified as-is.
Interval labels are rendered as the interval index, an injective renaming of
the `pandas` interval notation, which grouping cannot distinguish. -/
def binColumn (bins : ℕ) : Column → List String
  | .cat vals => vals
  | .num vals =>
    if bins < vals.dedup.length then
      let inner := ((qcutEdges vals bins).drop 1).dropLast
      vals.map (fun x => toString (binIndex inner x))
    else
      vals.map (fun x => toString x)

/-- `woe_iv(data, target, bins)` restricted to its IV output: one
`(Var_name, IV)` pair per input column (the returned `IV` data frame). -/
noncomputable def woe_iv (data : List (String × Column)) (target : List Bool)
    (bins : ℕ) : List (String × ℝ) :=
  data.map (fun c => (c.1, woeIvVar (binColumn bins c.2) target))

/-! ### `src/report_tables.py` — table model

A transaction row (`order_items`): its day (`_to_day(order_ts)`; both IV and
detail functions access `order_ts` unconditionally, so the timestamp is part
of the row), its sales amount (`_sales_col`: `gross_amount`, falling back to
`net_sales_amount` — a single field here), its discount amount and its
optional categorical attributes.  Column presence in the data frame is a
table-level fact in `pandas`, modelled by boolean flags on the table. -/

structure ItemRow where
  d : ℤ
  sales : ℚ
  discount : ℚ
  channel : Option String
  ad : Option String
  influencer : Option String
  couponId : Option String
deriving DecidableEq

/-- The `order_items` table: rows plus presence flags of the optional
columns (`channel`, `ad_id`, `influencer_id`, `discount_amount`,
`coupon_id`/`coupon_code`). -/
structure ItemsTable where
  hasChannel : Bool
  hasAd : Bool
  hasInfluencer : Bool
  hasDiscount : Bool
  hasCouponId : Bool
  rows : List ItemRow
deriving DecidableEq

/-- An adjustment row (`adjustments`): day (`_to_day(event_ts)`), signed
amount, optional product id. -/
structure AdjRow where
  d : ℤ
  amount : ℚ
  productId : Option String
deriving DecidableEq

/-- The `adjustments` table, with presence flags for the `amount` and
`product_id` columns. -/
structure AdjTable where
  hasAmount : Bool
  hasProductId : Bool
  rows : List AdjRow
deriving DecidableEq

/-- The membership test of `_stack_binary_for_iv`:
`val.notna() & (str(val).strip() != "") & (str(val).upper() != "NONE")`.
Note the `upper` test is on the unstripped string, exactly as in the
source. -/
def validCell : Option String → Bool
  | none => false
  | some s => !(s.trim == "") && !(s.toUpper == "NONE")

/-- `_stack_binary_for_iv(items, today, compare_date, dimension_col,
binary_col)`: derive the 0/1 membership column (all `0` when the dimension
column is absent), slice the rows of the two days, stack today first with
`is_today = 1` and the baseline with `is_today = 0`. -/
def stack_binary_for_iv (items : ItemsTable) (today compare : ℤ)
    (dim : ItemRow → Option String) (hasDim : Bool) : List ℕ × List Bool :=
  let binOf : ItemRow → ℕ := fun r => if hasDim then (if validCell (dim r) then 1 else 0) else 0
  let tRows := items.rows.filter (fun r => decide (r.d = today))
  let bRows := items.rows.filter (fun r => decide (r.d = compare))
  ((tRows ++ bRows).map binOf, tRows.map (fun _ => true) ++ bRows.map (fun _ => false))

/-- `compute_iv_binary`: the IV of the stacked 0/1 membership column against
the day label.  The single-column `woe_iv` call always yields exactly one
`(Var_name, IV)` row, whose `IV` is returned; `woe_iv` never takes its
`qcut` branch here because the column has at most two distinct values with
`bins = 2`.  The `except` branch of the source cannot fire in this total
embedding. -/
noncomputable def compute_iv_binary (items : ItemsTable) (today compare : ℤ)
    (dim : ItemRow → Option String) (hasDim : Bool) : ℝ :=
  let s := stack_binary_for_iv items today compare dim hasDim
  woeIvVar s.1 s.2

/-- `_iv_cost_by_decile(df, date_col, value_col, today, compare_date, bins)`:
keep the rows of the two days; return `0.0` if none, or if the baseline day
has fewer than 2 rows; compute the inner quantiles
`np.percentile(bench, linspace(0, 100, bins+1)[1:-1])` of the baseline
values only, deduplicate them (`np.unique`), and return `0.0` when fewer
than 2 distinct breakpoints remain; otherwise `pd.cut` both days' values at
those breakpoints (with `±inf` outer edges) and run `woe_iv` on the
stringified bin labels against the day label.  Row values are already
numeric in this model (`pd.to_numeric(..., errors='coerce').fillna(0)` is
the identity on them); the `value_col in sub.columns` guard is modelled by
the value being a field of the row. -/
noncomputable def iv_cost_by_decile (rows : List (ℤ × ℚ)) (today compare : ℤ)
    (bins : ℕ) : ℝ :=
  let sub := rows.filter (fun r => decide (r.1 = today) || decide (r.1 = compare))
  if sub.isEmpty then 0
  else
    let bench := (sub.filter (fun r => decide (r.1 = compare))).map Prod.snd
    if bench.length < 2 then 0
    else
      let probes := (List.range (bins - 1)).map (fun (i : ℕ) => 100 * ((i : ℚ) + 1) / (bins : ℚ))
      let qs := npUnique (npPercentile bench probes)
      if qs.length < 2 then 0
      else
        woeIvVar (sub.map (fun r => binIndex qs r.2)) (sub.map (fun r => decide (r.1 = today)))

/-- `compute_iv_for_cost_columns(items, adj, today, compare_date)`: the
coupon-cost IV over `order_items.discount_amount` when that column exists,
then the refund IV over `adjustments.amount` when that column exists, both
binned by baseline deciles (`bins = 10`). -/
noncomputable def compute_iv_for_cost_columns (items : ItemsTable) (adj : AdjTable)
    (today compare : ℤ) : List (String × ℝ) :=
  (if items.hasDiscount then
    [("쿠폰비용", iv_cost_by_decile (items.rows.map (fun r => (r.d, r.discount))) today compare 10)]
  else []) ++
  (if adj.hasAmount then
    [("환불액", iv_cost_by_decile (adj.rows.map (fun r => (r.d, r.amount))) today compare 10)]
  else [])

/-- The ranking list of `get_iv_ranking` before sorting, in registration
order: channel, ad, influencer membership IVs, then the cost factors in the
order `compute_iv_for_cost_columns` emits them. -/
noncomputable def preRanking (items : ItemsTable) (adj : AdjTable)
    (today compare : ℤ) : List (String × ℝ) :=
  [("채널/비채널 (매출)", compute_iv_binary items today compare (fun r => r.channel) items.hasChannel),
   ("광고/비광고 (매출)", compute_iv_binary items today compare (fun r => r.ad) items.hasAd),
   ("인플루언서/비인플루언서 (매출)", compute_iv_binary items today compare (fun r => r.influencer) items.hasInfluencer)] ++
  (compute_iv_for_cost_columns items adj today compare).map (fun p => (p.1 ++ " (비용)", p.2))

/-- The descending-by-IV order used by `ranking.sort(key=lambda x: -x[1])`. -/
def rankGE (x y : String × ℝ) : Prop := y.2 ≤ x.2

noncomputable instance : DecidableRel rankGE := fun x y => Real.decidableLE y.2 x.2

/-- `get_iv_ranking(...)['ranking']`: the factor list sorted descending by
IV with Python's stable `list.sort`, modelled by insertion sort under the
total preorder `rankGE`. -/
noncomputable def get_iv_ranking (items : ItemsTable) (adj : AdjTable)
    (today compare : ℤ) : List (String × ℝ) :=
  List.insertionSort rankGE (preRanking items adj today compare)

/-! ### `src/report_tables.py` — drill-down detail tables

Detail rows are `(member id, today value, baseline value)`; member sums are
`ℚ`, so the tables stay executable. -/

/-- Today's-value-descending order on detail rows. -/
def detailGE {κ : Type} (x y : κ × ℚ × ℚ) : Prop := y.2.1 ≤ x.2.1

/-- Today's-value-ascending order on detail rows. -/
def detailLE {κ : Type} (x y : κ × ℚ × ℚ) : Prop := x.2.1 ≤ y.2.1

instance {κ : Type} : DecidableRel (@detailGE κ) :=
  fun x y => inferInstanceAs (Decidable (y.2.1 ≤ x.2.1))

instance {κ : Type} : DecidableRel (@detailLE κ) :=
  fun x y => inferInstanceAs (Decidable (x.2.1 ≤ y.2.1))

/-- `_detail_table_today_base(items, today, compare_date, id_col, id_label,
top_n)`: empty when the id column is absent; otherwise group both days by
the id (`dropna=False`, so a missing id is its own group), reindex over the
union of keys with missing members as `0`, sort by today's sales descending
(`ascending=False`) and truncate to `top_n`.  (`pandas` `Index.union` sorts
the keys; since the rows are re-sorted by value immediately afterwards, the
first-occurrence key order used here differs only in the order of ties.) -/
def detail_table_today_base (items : ItemsTable) (today compare : ℤ)
    (idOf : ItemRow → Option String) (hasCol : Bool) (topN : ℕ) :
    List (Option String × ℚ × ℚ) :=
  if hasCol then
    let tRows := items.rows.filter (fun r => decide (r.d = today))
    let bRows := items.rows.filter (fun r => decide (r.d = compare))
    let keys := ((tRows.map idOf) ++ (bRows.map idOf)).dedup
    let sumFor := fun (l : List ItemRow) (k : Option String) =>
      ((l.filter (fun r => decide (idOf r = k))).map (fun r => r.sales)).sum
    let tbl := keys.map (fun k => (k, sumFor tRows k, sumFor bRows k))
    (List.insertionSort detailGE tbl).take topN
  else []

/-- `_refund_detail_top5(adj, today, compare_date, top_n)`, detail part:
group both days' adjustments by `product_id` when present (plain `groupby`,
i.e. `dropna=True`: rows with a missing id are dropped) and otherwise by the
reset row index; missing members count `0`; sort by today's refund amount
**ascending** (`ascending=True`) and truncate to `top_n`. -/
def refund_detail_top5 (adj : AdjTable) (today compare : ℤ) (topN : ℕ) :
    List ((ℕ ⊕ String) × ℚ × ℚ) :=
  let rows := adj.rows.enum
  let keyOf : ℕ × AdjRow → Option (ℕ ⊕ String) := fun p =>
    if adj.hasProductId then p.2.productId.map Sum.inr else some (Sum.inl p.1)
  let tRows := rows.filter (fun p => decide (p.2.d = today))
  let bRows := rows.filter (fun p => decide (p.2.d = compare))
  let keys := ((tRows.filterMap keyOf) ++ (bRows.filterMap keyOf)).dedup
  let sumFor := fun (l : List (ℕ × AdjRow)) (k : ℕ ⊕ String) =>
    ((l.filter (fun p => decide (keyOf p = some k))).map (fun p => p.2.amount)).sum
  let tbl := keys.map (fun k => (k, sumFor tRows k, sumFor bRows k))
  (List.insertionSort detailLE tbl).take topN

/-- `_coupon_detail_top5(items, today, compare_date, top_n)`, detail part:
empty when `discount_amount` is absent or no coupon id column
(`coupon_id`/`coupon_code`, one optional field here) exists; otherwise group
both days by coupon id (`dropna=False`), missing members count `0`, sort by
today's coupon cost **descending** (`ascending=False`) and truncate to
`top_n`. -/
def coupon_detail_top5 (items : ItemsTable) (today compare : ℤ) (topN : ℕ) :
    List (Option String × ℚ × ℚ) :=
  if items.hasDiscount && items.hasCouponId then
    let tRows := items.rows.filter (fun r => decide (r.d = today))
    let bRows := items.rows.filter (fun r => decide (r.d = compare))
    let keys := ((tRows.map (fun r => r.couponId)) ++ (bRows.map (fun r => r.couponId))).dedup
    let sumFor := fun (l : List ItemRow) (k : Option String) =>
      ((l.filter (fun r => decide (r.couponId = k))).map (fun r => r.discount)).sum
    let tbl := keys.map (fun k => (k, sumFor tRows k, sumFor bRows k))
    (List.insertionSort detailGE tbl).take topN
  else []

/-! ### Percent change

`core.py::get_comparison_kpis._row` and
`report_tables.py::build_components_for_llm`. -/

/-- Python's `round(x, 1)`: modelled with `round` (round-half-up), which
agrees with Python's banker's rounding everywhere except exact ties at a
half of a tenth. -/
noncomputable def pyRound1 (x : ℝ) : ℝ := ((round (x * 10) : ℤ) : ℝ) / 10

/-- `_row(current, compare)` of `get_comparison_kpis` (src/core.py): for a
nonzero baseline, `round(delta / abs(compare) * 100, 1)`; for a zero
baseline, `100.0` / `0.0` / `-100.0` by the sign of the delta. -/
noncomputable def kpi_row_pct (current compare : ℝ) : ℝ :=
  if compare ≠ 0 then pyRound1 ((current - compare) / |compare| * 100)
  else if 0 < current - compare then 100
  else if current - compare = 0 then 0
  else -100

/-- The percent change stored by `build_components_for_llm`
(src/report_tables.py): `pct = ((a - b) / b * 100) if b != 0 else 0`
followed by `round(pct, 1)`.  Here `a` is today's value and `b` the
baseline value. -/
noncomputable def components_pct (a b : ℝ) : ℝ :=
  pyRound1 (if b ≠ 0 then (a - b) / b * 100 else 0)

/-! ### `src/metrics.py` — the metric dependency registry

`MetricRegistry._compute_recursive(key, ctx, cache)` looks the key up in the
cache, otherwise resolves the metric, recursively computes its dependencies
(sharing the cache), calls the compute function on the dependency results,
checks that the result has a `value` column and caches it.
`compute_metric` starts with a fresh cache; `compute_category` computes a
list of keys sharing one cache.

The compute result is modelled by its column list (the registry itself only
inspects `"value" in df.columns`); the context argument of the compute
function carries no information the registry logic reads, so compute
functions take only the resolved dependency results.  Python's unbounded
recursion is modelled with explicit fuel; running out of fuel is the image
of `RecursionError` on cyclic graphs.  Calling the compute function is
recorded in a call log so that memoization ("each compute function is
invoked at most once per call") is statable. -/

/-- A computed metric table, reduced to its column list. -/
structure DFrame where
  cols : List String
deriving DecidableEq

/-- `"value" in df.columns`. -/
def DFrame.hasValue (df : DFrame) : Bool := "value" ∈ df.cols

/-- A registered metric: its dependency keys and compute function
(`Metric.depends_on`, `Metric.compute`). -/
structure MetricM where
  depends_on : List String
  compute : List (String × DFrame) → DFrame

/-- The registry, as the association list of registered metrics. -/
abbrev Registry : Type := List (String × MetricM)

/-- Registry failures: `KeyError(f"Unknown metric: {key}")`,
`ValueError(f"Metric {key} must return dataframe with 'value'")`, and the
fuel-exhaustion image of `RecursionError` on cyclic graphs. -/
inductive RegErr where
  | unknown (key : String)
  | noValue (key : String)
  | fuelOut
deriving DecidableEq

/-- The per-call memoization cache (`cache: Dict[str, pd.DataFrame]`). -/
abbrev Cache : Type := List (String × DFrame)

/-- One step of the dependency loop `for dep in m.depends_on:
dep_results[dep] = self._compute_recursive(dep, ctx, cache)`, generic in the
one-level-deeper evaluator `f`.  Returns the dependency results in order,
the grown cache and the concatenated call log. -/
def depsFold (f : String → Cache → Except RegErr (DFrame × Cache × List String)) :
    List String → Cache → Except RegErr (List (String × DFrame) × Cache × List String)
  | [], cache => .ok ([], cache, [])
  | d :: ds, cache =>
    match f d cache with
    | .error e => .error e
    | .ok (df, cache1, log1) =>
      match depsFold f ds cache1 with
      | .error e => .error e
      | .ok (rest, cache2, log2) => .ok ((d, df) :: rest, cache2, log2 ++ log1)

/-- `MetricRegistry._compute_recursive(key, ctx, cache)` with fuel: cache
hit returns the cached frame; otherwise `self.get(key)` (raising `unknown`
when the key is not registered), recursive dependency resolution, the
compute call (logged), the `value`-column check and caching. -/
def compute_recursive (reg : Registry) : ℕ → String → Cache →
    Except RegErr (DFrame × Cache × List String)
  | 0, _, _ => .error .fuelOut
  | fuel + 1, key, cache =>
    match List.lookup key cache with
    | some df => .ok (df, cache, [])
    | none =>
      match List.lookup key reg with
      | none => .error (.unknown key)
      | some m =>
        match depsFold (compute_recursive reg fuel) m.depends_on cache with
        | .error e => .error e
        | .ok (depRes, cache1, log1) =>
          if (m.compute depRes).hasValue then
            .ok (m.compute depRes, (key, m.compute depRes) :: cache1, key :: log1)
          else .error (.noValue key)

/-- `compute_metric(key, ctx)`: a fresh cache per call. -/
def compute_metric (reg : Registry) (fuel : ℕ) (key : String) :
    Except RegErr (DFrame × Cache × List String) :=
  compute_recursive reg fuel key []

/-- `compute_category(category, ctx)`: the metrics of the category computed
in order with one shared cache. -/
def compute_category (reg : Registry) (fuel : ℕ) (keys : List String) :
    Except RegErr (List (String × DFrame) × Cache × List String) :=
  depsFold (compute_recursive reg fuel) keys []

/-- Transitive dependency reachability through the registry. -/
inductive Reaches (reg : Registry) : String → String → Prop
  | refl (k : String) : Reaches reg k k
  | step {k j d : String} {m : MetricM} (hm : List.lookup k reg = some m)
      (hd : d ∈ m.depends_on) (h : Reaches reg d j) : Reaches reg k j

/-- The acyclicity witness of the data-model invariant: a rank function
decreasing along dependency edges. -/
def Ranked (reg : Registry) (rank : String → ℕ) : Prop :=
  ∀ p ∈ reg, ∀ d ∈ p.2.depends_on, rank d < rank p.1

/-- Every dependency of a registered metric is itself registered. -/
def Complete (reg : Registry) : Prop :=
  ∀ p ∈ reg, ∀ d ∈ p.2.depends_on, (List.lookup d reg).isSome

/-- Every registered compute function returns a frame with a `value`
column whatever dependency results it receives. -/
def AllValue (reg : Registry) : Prop :=
  ∀ p ∈ reg, ∀ inp, (p.2.compute inp).hasValue = true


/-- The post-condition of one successful evaluator call used below: logged
keys are fresh, logged keys end up cached, cached keys stay cached, the log
is duplicate-free, and logged keys are reachable from the requested key. -/
def RecInv (reg : Registry) (k : String) (cache c' : Cache) (log : List String) : Prop :=
  (∀ j ∈ log, List.lookup j cache = none ∧ (List.lookup j c').isSome ∧ Reaches reg k j) ∧
  (∀ j, (List.lookup j cache).isSome → (List.lookup j c').isSome) ∧ log.Nodup

/-- A cache is good when every cached key is a registered metric whose
dependencies are all cached and whose cached frame has a `value` column.
The empty cache of `compute_metric` is trivially good. -/
def GoodCache (reg : Registry) (cache : Cache) : Prop :=
  ∀ k df, List.lookup k cache = some df →
    ((∃ m, List.lookup k reg = some m ∧
      ∀ d ∈ m.depends_on, (List.lookup d cache).isSome) ∧ df.hasValue = true)

/-! ### Concrete inputs used by the claims -/

/-- The baseline-anchored binning scenario: cost values on the baseline day
`0` are `[10, 10, 10, 90, 90, 90]`, today (day `1`) they are six times
`50`. -/
def costRowsC2 : List (ℤ × ℚ) :=
  [(1, 50), (1, 50), (1, 50), (1, 50), (1, 50), (1, 50),
   (0, 10), (0, 10), (0, 10), (0, 90), (0, 90), (0, 90)]

/-- An `order_items` table with none of the optional columns and no rows;
in particular `discount_amount` is absent. -/
def itemsEmpty : ItemsTable := ⟨false, false, false, false, false, []⟩

/-- An `adjustments` table with none of the optional columns and no rows. -/
def adjEmpty : AdjTable := ⟨false, false, []⟩

/-- An `adjustments` table whose `amount` column exists and whose baseline
day `0` carries exactly one row: a degenerate baseline slice. -/
def adjOneBench : AdjTable := ⟨true, false, [⟨0, -5, none⟩]⟩

/-- Items for the coupon-sort counterexample: two coupons, `a` and `b`, on
day `1` with coupon costs `5` resp. `9`, nothing on the baseline day. -/
def itemsC8 : ItemsTable :=
  ⟨false, false, false, true, true,
   [⟨1, 0, 5, none, none, none, some "a"⟩, ⟨1, 0, 9, none, none, none, some "b"⟩]⟩

/-- A compute function whose result always has a `value` column. -/
def constValueFn : List (String × DFrame) → DFrame := fun _ => ⟨["value"]⟩

/-- The diamond registry: `D` depends on `B` and `C`, which both depend on
`A`. -/
def diamondReg : Registry :=
  [("A", ⟨[], constValueFn⟩), ("B", ⟨["A"], constValueFn⟩),
   ("C", ⟨["A"], constValueFn⟩), ("D", ⟨["B", "C"], constValueFn⟩)]

/-- A rank function witnessing that the diamond is acyclic. -/
def diamondRank : String → ℕ :=
  fun k => if k = "D" then 2 else if k = "A" then 0 else 1

/-! ### Theorems about the evaluator and the registry -/
/-! #### Sign facts about the IV sum -/

theorem ivTerm_nonneg {a b : ℚ} (ha : 0 < a) (hb : 0 < b) : 0 ≤ ivTerm a b := by
  have ha' : (0 : ℝ) < (a : ℝ) := by exact_mod_cast ha
  have hb' : (0 : ℝ) < (b : ℝ) := by exact_mod_cast hb
  rcases le_total (a : ℝ) (b : ℝ) with h | h
  · have h1 : (a : ℝ) - b ≤ 0 := sub_nonpos.2 h
    have h2 : Real.log ((a : ℝ) / b) ≤ 0 :=
      Real.log_nonpos (by positivity) ((div_le_one hb').2 h)
    have h3 := mul_nonneg (neg_nonneg.2 h1) (neg_nonneg.2 h2)
    rw [neg_mul_neg] at h3
    exact h3
  · have h1 : (0 : ℝ) ≤ (a : ℝ) - b := sub_nonneg.2 h
    have h2 : (0 : ℝ) ≤ Real.log ((a : ℝ) / b) :=
      Real.log_nonneg ((one_le_div hb').2 h)
    exact mul_nonneg h1 h2

theorem ivTerm_pos_of_lt {a b : ℚ} (ha : 0 < a) (hab : a < b) : 0 < ivTerm a b := by
  have ha' : (0 : ℝ) < (a : ℝ) := by exact_mod_cast ha
  have hb' : (0 : ℝ) < (b : ℝ) := lt_trans ha' (by exact_mod_cast hab)
  have h1 : (a : ℝ) - b < 0 := sub_neg.2 (by exact_mod_cast hab)
  have h2 : Real.log ((a : ℝ) / b) < 0 :=
    Real.log_neg (by positivity) ((div_lt_one hb').2 (by exact_mod_cast hab))
  exact mul_pos_of_neg_of_neg h1 h2

theorem ivTerm_pos_of_gt {a b : ℚ} (hb : 0 < b) (hab : b < a) : 0 < ivTerm a b := by
  have hb' : (0 : ℝ) < (b : ℝ) := by exact_mod_cast hb
  have h1 : (0 : ℝ) < (a : ℝ) - b := sub_pos.2 (by exact_mod_cast hab)
  have h2 : (0 : ℝ) < Real.log ((a : ℝ) / b) :=
    Real.log_pos ((one_lt_div hb').2 (by exact_mod_cast hab))
  exact mul_pos h1 h2

theorem ivTerm_self (a : ℚ) : ivTerm a a = 0 := by
  simp [ivTerm]

theorem smE_pos (rows : List (α × Bool)) (v : α) : 0 < smE rows v := by
  unfold smE; positivity

theorem smNE_pos (rows : List (α × Bool)) (v : α) : 0 < smNE rows v := by
  unfold smNE; positivity

theorem totE_pos {rows : List (α × Bool)} (h : levels rows ≠ []) : 0 < totE rows := by
  refine List.sum_pos _ ?_ (by simpa using h)
  intro x hx
  obtain ⟨v, _, rfl⟩ := List.mem_map.1 hx
  exact smE_pos rows v

theorem totNE_pos {rows : List (α × Bool)} (h : levels rows ≠ []) : 0 < totNE rows := by
  refine List.sum_pos _ ?_ (by simpa using h)
  intro x hx
  obtain ⟨v, _, rfl⟩ := List.mem_map.1 hx
  exact smNE_pos rows v

theorem pctE_pos {rows : List (α × Bool)} {v : α} (hv : v ∈ levels rows) :
    0 < pctE rows v := by
  have h : levels rows ≠ [] := List.ne_nil_of_mem hv
  exact div_pos (mul_pos (smE_pos rows v) (by norm_num)) (totE_pos h)

theorem pctNE_pos {rows : List (α × Bool)} {v : α} (hv : v ∈ levels rows) :
    0 < pctNE rows v := by
  have h : levels rows ≠ [] := List.ne_nil_of_mem hv
  exact div_pos (mul_pos (smNE_pos rows v) (by norm_num)) (totNE_pos h)

/-- Every summand of the IV is non-negative, hence so is the IV itself. -/
theorem woeIvRows_nonneg (rows : List (α × Bool)) : 0 ≤ woeIvRows rows := by
  refine List.sum_nonneg ?_
  intro x hx
  obtain ⟨v, hv, rfl⟩ := List.mem_map.1 hx
  exact ivTerm_nonneg (pctE_pos hv) (pctNE_pos hv)

theorem woeIvVar_nonneg (xs : List α) (ys : List Bool) : 0 ≤ woeIvVar xs ys :=
  woeIvRows_nonneg (xs.zip ys)

/-- `dedup` of a constant list is empty or a singleton. -/
theorem dedup_of_all_eq {c : α} :
    ∀ {l : List α}, (∀ x ∈ l, x = c) → l.dedup = [] ∨ l.dedup = [c]
  | [], _ => Or.inl rfl
  | a :: l, hall => by
    have ha : a = c := hall a (by simp)
    have hl : ∀ x ∈ l, x = c := fun x hx => hall x (by simp [hx])
    rcases dedup_of_all_eq hl with h0 | h0
    · have hnm : a ∉ l := by
        intro hmem
        exact List.ne_nil_of_mem (List.mem_dedup.2 hmem) h0
      rw [List.dedup_cons_of_not_mem hnm, h0, ha]
      exact Or.inr rfl
    · by_cases hmem : a ∈ l
      · rw [List.dedup_cons_of_mem hmem]; exact Or.inr h0
      · have : c ∈ l.dedup := by rw [h0]; simp
        exact absurd (ha ▸ List.mem_dedup.1 this) hmem

/-- A one-level variable has `pct_E = pct_NE = 100` on its single group, so
its IV is `0`. -/
theorem woeIvRows_const {rows : List (α × Bool)} {c : α}
    (h : ∀ r ∈ rows, r.1 = c) : woeIvRows rows = 0 := by
  have hall : ∀ x ∈ rows.map Prod.fst, x = c := by
    intro x hx
    obtain ⟨r, hr, rfl⟩ := List.mem_map.1 hx
    exact h r hr
  have hded : levels rows = [] ∨ levels rows = [c] := dedup_of_all_eq hall
  unfold woeIvRows
  rcases hded with h0 | h0
  · rw [h0]; simp
  · rw [h0]
    have hE : pctE rows c = 100 := by
      unfold pctE totE
      rw [show levels rows = [c] from h0]
      simp only [List.map_cons, List.map_nil, List.sum_cons, List.sum_nil, add_zero]
      rw [mul_comm, mul_div_assoc, div_self (ne_of_gt (smE_pos rows c)), mul_one]
    have hNE : pctNE rows c = 100 := by
      unfold pctNE totNE
      rw [show levels rows = [c] from h0]
      simp only [List.map_cons, List.map_nil, List.sum_cons, List.sum_nil, add_zero]
      rw [mul_comm, mul_div_assoc, div_self (ne_of_gt (smNE_pos rows c)), mul_one]
    simp [hE, hNE, ivTerm_self]

/-- A variable whose column has all values equal has IV `0`. -/
theorem woeIvVar_const {xs : List α} {c : α} (h : ∀ x ∈ xs, x = c)
    (ys : List Bool) : woeIvVar xs ys = 0 := by
  refine @woeIvRows_const _ _ _ c ?_
  intro r hr
  exact h r.1 (List.of_mem_zip hr).1

theorem lookup_mem {β : Type} {l : List (String × β)} {k : String} {v : β}
    (h : List.lookup k l = some v) : (k, v) ∈ l := by
  induction l with
  | nil => simp [List.lookup] at h
  | cons p t ih =>
    rw [List.lookup] at h
    by_cases hk : k = p.1
    · simp [hk] at h
      exact h ▸ (by simp [← h, hk] : (k, v) ∈ p :: t)
    · have : (k == p.1) = false := by simp [hk]
      rw [this] at h
      exact List.mem_cons_of_mem _ (ih h)

/-! #### Memoization invariants -/

theorem reaches_rank_le {reg : Registry} {rank : String → ℕ} (hR : Ranked reg rank)
    {a b : String} (h : Reaches reg a b) : rank b ≤ rank a := by
  induction h with
  | refl k => exact le_refl _
  | step hm hd _ ih => exact ih.trans (le_of_lt (hR _ (lookup_mem hm) _ hd))
theorem depsFold_inv (reg : Registry)
    (f : String → Cache → Except RegErr (DFrame × Cache × List String))
    (Hf : ∀ k cache df c' log, f k cache = .ok (df, c', log) → RecInv reg k cache c' log) :
    ∀ (ds : List String) (cache : Cache) out c' log,
      depsFold f ds cache = .ok (out, c', log) →
      (∀ j ∈ log, List.lookup j cache = none ∧ (List.lookup j c').isSome ∧
        ∃ d ∈ ds, Reaches reg d j) ∧
      (∀ j, (List.lookup j cache).isSome → (List.lookup j c').isSome) ∧ log.Nodup := by
  intro ds
  induction ds with
  | nil =>
    intro cache out c' log h
    simp only [depsFold] at h
    obtain ⟨rfl, rfl, rfl⟩ : ([] : List (String × DFrame)) = out ∧ cache = c' ∧ [] = log := by
      cases h; exact ⟨rfl, rfl, rfl⟩
    exact ⟨by simp, fun j hj => hj, List.nodup_nil⟩
  | cons d ds ih =>
    intro cache out c' log h
    rw [depsFold] at h
    split at h
    · exact absurd h (by simp)
    rename_i df cache1 log1 h1
    split at h
    · exact absurd h (by simp)
    rename_i rest cache2 log2 h2
    obtain ⟨rfl, rfl, rfl⟩ : ((d, df) :: rest) = out ∧ cache2 = c' ∧ log2 ++ log1 = log := by
      cases h; exact ⟨rfl, rfl, rfl⟩
    obtain ⟨hf1, hf2, hf3⟩ := Hf d cache df cache1 log1 h1
    obtain ⟨hd1, hd2, hd3⟩ := ih cache1 rest cache2 log2 h2
    refine ⟨?_, fun j hj => hd2 j (hf2 j hj), ?_⟩
    · intro j hj
      rcases List.mem_append.1 hj with hj2 | hj1
      · obtain ⟨hfresh, hsome, dd, hdd, hre⟩ := hd1 j hj2
        refine ⟨?_, hsome, dd, List.mem_cons_of_mem _ hdd, hre⟩
        rcases h0 : List.lookup j cache with _ | v
        · rfl
        · exact absurd (hf2 j (by simp [h0])) (by simp [hfresh])
      · obtain ⟨hfresh, hsome, hre⟩ := hf1 j hj1
        exact ⟨hfresh, hd2 j hsome, d, by simp, hre⟩
    · refine List.Nodup.append hd3 hf3 ?_
      intro j hj2 hj1
      obtain ⟨hfresh2, _, _⟩ := hd1 j hj2
      obtain ⟨_, hsome1, _⟩ := hf1 j hj1
      rw [hfresh2] at hsome1
      exact absurd hsome1 (by simp)

theorem compute_recursive_inv {reg : Registry} {rank : String → ℕ} (hR : Ranked reg rank) :
    ∀ (fuel : ℕ) (k : String) (cache : Cache) df c' log,
      compute_recursive reg fuel k cache = .ok (df, c', log) → RecInv reg k cache c' log := by
  intro fuel
  induction fuel with
  | zero =>
    intro k cache df c' log h
    simp [compute_recursive] at h
  | succ fuel ih =>
    intro k cache df c' log h
    rw [compute_recursive] at h
    split at h
    · rename_i df0 hc
      obtain ⟨rfl, rfl, rfl⟩ : df0 = df ∧ cache = c' ∧ ([] : List String) = log := by
        cases h; exact ⟨rfl, rfl, rfl⟩
      exact ⟨by simp, fun j hj => hj, List.nodup_nil⟩
    rename_i hc
    split at h
    · exact absurd h (by simp)
    rename_i m hr
    split at h
    · exact absurd h (by simp)
    rename_i depRes cache1 log1 hdeps
    split at h
    case isFalse => exact absurd h (by simp)
    rename_i hv
    obtain ⟨rfl, rfl, rfl⟩ :
        m.compute depRes = df ∧ ((k, m.compute depRes) :: cache1) = c' ∧ k :: log1 = log := by
      cases h; exact ⟨rfl, rfl, rfl⟩
    obtain ⟨hd1, hd2, hd3⟩ :=
      depsFold_inv reg (compute_recursive reg fuel)
        (fun k' cache' df' c'' log' h' => ih k' cache' df' c'' log' h')
        m.depends_on cache depRes cache1 log1 hdeps
    refine ⟨?_, ?_, ?_⟩
    · intro j hj
      rcases List.mem_cons.1 hj with rfl | hj1
      · exact ⟨hc, by simp, Reaches.refl j⟩
      · obtain ⟨hfresh, hsome, dd, hdd, hre⟩ := hd1 j hj1
        refine ⟨hfresh, ?_, Reaches.step hr hdd hre⟩
        by_cases hjk : (j == k) = true
        · simp [List.lookup, hjk]
        · simp only [List.lookup, hjk]
          exact hsome
    · intro j hj
      have hj2 := hd2 j hj
      by_cases hjk : (j == k) = true
      · simp [List.lookup, hjk]
      · simp only [List.lookup, hjk]
        exact hj2
    · refine List.nodup_cons.2 ⟨?_, hd3⟩
      intro hk1
      obtain ⟨_, _, dd, hdd, hre⟩ := hd1 k hk1
      have h1 : rank k ≤ rank dd := reaches_rank_le hR hre
      have h2 : rank dd < rank k := hR _ (lookup_mem hr) _ hdd
      exact absurd (lt_of_le_of_lt h1 h2) (lt_irrefl _)

theorem depsFold_good (reg : Registry)
    (f : String → Cache → Except RegErr (DFrame × Cache × List String))
    (Hf : ∀ k cache df c' log, f k cache = .ok (df, c', log) → GoodCache reg cache →
      GoodCache reg c' ∧ (List.lookup k c').isSome ∧ df.hasValue = true ∧
      (∀ j, (List.lookup j cache).isSome → (List.lookup j c').isSome)) :
    ∀ (ds : List String) (cache : Cache) out c' log,
      depsFold f ds cache = .ok (out, c', log) → GoodCache reg cache →
      GoodCache reg c' ∧ (∀ d ∈ ds, (List.lookup d c').isSome) ∧
      (∀ j, (List.lookup j cache).isSome → (List.lookup j c').isSome) := by
  intro ds
  induction ds with
  | nil =>
    intro cache out c' log h hG
    rw [depsFold] at h
    obtain ⟨rfl, rfl, rfl⟩ : ([] : List (String × DFrame)) = out ∧ cache = c' ∧ [] = log := by
      cases h; exact ⟨rfl, rfl, rfl⟩
    exact ⟨hG, by simp, fun j hj => hj⟩
  | cons d ds ih =>
    intro cache out c' log h hG
    rw [depsFold] at h
    split at h
    · exact absurd h (by simp)
    rename_i df cache1 log1 h1
    split at h
    · exact absurd h (by simp)
    rename_i rest cache2 log2 h2
    obtain ⟨rfl, rfl, rfl⟩ : ((d, df) :: rest) = out ∧ cache2 = c' ∧ log2 ++ log1 = log := by
      cases h; exact ⟨rfl, rfl, rfl⟩
    obtain ⟨hG1, hd1, _, hmono1⟩ := Hf d cache df cache1 log1 h1 hG
    obtain ⟨hG2, hds, hmono2⟩ := ih cache1 rest cache2 log2 h2 hG1
    refine ⟨hG2, ?_, fun j hj => hmono2 j (hmono1 j hj)⟩
    intro d0 hd0
    rcases List.mem_cons.1 hd0 with rfl | hd0'
    · exact hmono2 d0 hd1
    · exact hds d0 hd0'

theorem compute_recursive_good (reg : Registry) :
    ∀ (fuel : ℕ) (k : String) (cache : Cache) df c' log,
      compute_recursive reg fuel k cache = .ok (df, c', log) → GoodCache reg cache →
      GoodCache reg c' ∧ (List.lookup k c').isSome ∧ df.hasValue = true ∧
      (∀ j, (List.lookup j cache).isSome → (List.lookup j c').isSome) := by
  intro fuel
  induction fuel with
  | zero =>
    intro k cache df c' log h _
    simp [compute_recursive] at h
  | succ fuel ih =>
    intro k cache df c' log h hG
    rw [compute_recursive] at h
    split at h
    · rename_i df0 hc
      obtain ⟨rfl, rfl, rfl⟩ : df0 = df ∧ cache = c' ∧ ([] : List String) = log := by
        cases h; exact ⟨rfl, rfl, rfl⟩
      exact ⟨hG, by simp [hc], (hG k df0 hc).2, fun j hj => hj⟩
    rename_i hc
    split at h
    · exact absurd h (by simp)
    rename_i m hr
    split at h
    · exact absurd h (by simp)
    rename_i depRes cache1 log1 hdeps
    split at h
    case isFalse => exact absurd h (by simp)
    rename_i hv
    obtain ⟨rfl, rfl, rfl⟩ :
        m.compute depRes = df ∧ ((k, m.compute depRes) :: cache1) = c' ∧ k :: log1 = log := by
      cases h; exact ⟨rfl, rfl, rfl⟩
    obtain ⟨hG1, hds, hmono⟩ :=
      depsFold_good reg (compute_recursive reg fuel)
        (fun k' cache' df' c'' log' h' => ih k' cache' df' c'' log' h')
        m.depends_on cache depRes cache1 log1 hdeps hG
    have hconsSome : ∀ j, (List.lookup j cache1).isSome →
        (List.lookup j ((k, m.compute depRes) :: cache1)).isSome := by
      intro j hj
      by_cases hjk : (j == k) = true
      · simp [List.lookup, hjk]
      · simp only [List.lookup, hjk]
        exact hj
    refine ⟨?_, by simp [List.lookup], hv, fun j hj => hconsSome j (hmono j hj)⟩
    intro k0 df0 hk0
    rw [List.lookup] at hk0
    by_cases hk0k : (k0 == k) = true
    · rw [hk0k] at hk0
      have hk0eq : k0 = k := eq_of_beq hk0k
      have hdf0 : m.compute depRes = df0 := by simpa using hk0
      subst hk0eq
      refine ⟨⟨m, hr, ?_⟩, hdf0 ▸ hv⟩
      intro d hd
      exact hconsSome d (hds d hd)
    · have hk0f : (k0 == k) = false := by simpa using hk0k
      rw [hk0f] at hk0
      obtain ⟨⟨m', hm', hdeps'⟩, hval⟩ := hG1 k0 df0 hk0
      refine ⟨⟨m', hm', ?_⟩, hval⟩
      intro d hd
      exact hconsSome d (hdeps' d hd)

/-- In a good cache, everything reachable from a cached key is registered. -/
theorem good_reaches_registered {reg : Registry} {cache : Cache}
    (hG : GoodCache reg cache) :
    ∀ {k j : String}, Reaches reg k j → (List.lookup k cache).isSome →
      (List.lookup j reg).isSome := by
  intro k j h
  induction h with
  | refl k0 =>
    intro hk0
    obtain ⟨df, hdf⟩ := Option.isSome_iff_exists.1 hk0
    obtain ⟨⟨m, hm, _⟩, _⟩ := hG k0 df hdf
    simp [hm]
  | step hm hd _ ih =>
    rename_i k1 j1 d1 m1 hre
    intro hk0
    obtain ⟨df, hdf⟩ := Option.isSome_iff_exists.1 hk0
    obtain ⟨⟨m', hm', hdeps'⟩, _⟩ := hG _ df hdf
    rw [hm'] at hm
    have hmm : m' = m1 := Option.some_injective _ hm
    exact ih (hdeps' _ (hmm.symm ▸ hd))

theorem depsFold_ok
    (f : String → Cache → Except RegErr (DFrame × Cache × List String)) :
    ∀ (ds : List String),
      (∀ d ∈ ds, ∀ cache : Cache, ∃ df c' log, f d cache = .ok (df, c', log)) →
      ∀ cache : Cache, ∃ out c' log, depsFold f ds cache = .ok (out, c', log) := by
  intro ds
  induction ds with
  | nil => exact fun _ cache => ⟨[], cache, [], rfl⟩
  | cons d ds ih =>
    intro hall cache
    obtain ⟨df, c1, l1, h1⟩ := hall d (by simp) cache
    obtain ⟨out, c2, l2, h2⟩ := ih (fun d0 hd0 => hall d0 (by simp [hd0])) c1
    exact ⟨(d, df) :: out, c2, l2 ++ l1, by simp [depsFold, h1, h2]⟩

/-- With an acyclic, dependency-complete registry whose compute functions
all return a `value` column, `_compute_recursive` succeeds once the fuel
exceeds the rank of the requested key. -/
theorem compute_recursive_ok {reg : Registry} {rank : String → ℕ}
    (hR : Ranked reg rank) (hC : Complete reg) (hV : AllValue reg) :
    ∀ (fuel : ℕ) (k : String) (cache : Cache),
      (List.lookup k reg).isSome → rank k < fuel →
      ∃ df c' log, compute_recursive reg fuel k cache = .ok (df, c', log) := by
  intro fuel
  induction fuel with
  | zero => intro k cache _ hlt; exact absurd hlt (by simp)
  | succ fuel ih =>
    intro k cache hreg hlt
    rcases hc : List.lookup k cache with _ | df0
    · obtain ⟨m, hm⟩ := Option.isSome_iff_exists.1 hreg
      have hdeps : ∀ d ∈ m.depends_on, ∀ cache0 : Cache,
          ∃ df c' log, compute_recursive reg fuel d cache0 = .ok (df, c', log) := by
        intro d hd cache0
        have hdreg : (List.lookup d reg).isSome := hC _ (lookup_mem hm) d hd
        have hdrank : rank d < fuel := by
          have h1 : rank d < rank k := hR _ (lookup_mem hm) d hd
          omega
        exact ih d cache0 hdreg hdrank
      obtain ⟨out, c2, l2, h2⟩ := depsFold_ok (compute_recursive reg fuel) m.depends_on hdeps cache
      have hval : (m.compute out).hasValue = true := hV _ (lookup_mem hm) out
      refine ⟨m.compute out, (k, m.compute out) :: c2, k :: l2, ?_⟩
      simp [compute_recursive, hc, hm, h2, hval]
    · exact ⟨df0, cache, [], by simp [compute_recursive, hc]⟩

/-! ### Claim C1 -/

/-- C1: for every input table of one or more variable columns and every
binary label series of equal length, the IV that `woe_iv` returns for each
variable is non-negative.  Each summand `(pct_E - pct_NE) * ln(pct_E /
pct_NE)` is non-negative because the Laplace smoothing makes both
percentages strictly positive and the factors share their sign. -/
theorem C1_iv_nonneg (data : List (String × Column)) (target : List Bool) (bins : ℕ)
    (_hlen : ∀ c ∈ data, colLen c.2 = target.length) :
    ∀ p ∈ woe_iv data target bins, 0 ≤ p.2 := by
  intro p hp
  simp only [woe_iv, List.mem_map] at hp
  obtain ⟨c, _, rfl⟩ := hp
  exact woeIvVar_nonneg _ _

/-- Witness for C1 at a concrete two-level column with labels `[1, 0]`. -/
theorem C1_iv_nonneg_witness :
    (∀ c ∈ [("x", Column.cat ["a", "b"])], colLen c.2 = ([true, false] : List Bool).length) ∧
    ∀ p ∈ woe_iv [("x", Column.cat ["a", "b"])] [true, false] 10, 0 ≤ p.2 :=
  ⟨by decide, C1_iv_nonneg [("x", Column.cat ["a", "b"])] [true, false] 10 (by decide)⟩

/-! ### Claim C10 -/

/-- C10: when the items table lacks the requested dimension column,
`_stack_binary_for_iv` derives a membership column that is `0` on every row
of both dates, and `compute_iv_binary` returns exactly `0.0` (the single
level `0` makes both percentage shares `100`, so the IV sum vanishes); no
missing-column error is raised — the absent column is never accessed. -/
theorem C10_missing_dimension_iv_zero (items : ItemsTable) (today compare : ℤ)
    (dim : ItemRow → Option String) :
    (∀ b ∈ (stack_binary_for_iv items today compare dim false).1, b = 0) ∧
    compute_iv_binary items today compare dim false = 0 := by
  have hall : ∀ b ∈ (stack_binary_for_iv items today compare dim false).1, b = 0 := by
    intro b hb
    simp only [stack_binary_for_iv, Bool.false_eq_true, if_false, List.mem_map] at hb
    obtain ⟨r, _, rfl⟩ := hb
    rfl
  exact ⟨hall, woeIvVar_const hall _⟩

/-! ### Claim C3 -/

/-- Evaluation of the modelled `round(x, 1)` when `10 x` is an integer. -/
theorem pyRound1_eq (x : ℝ) (n : ℤ) (h : x * 10 = (n : ℝ)) :
    pyRound1 x = (n : ℝ) / 10 := by
  unfold pyRound1
  rw [h, round_intCast]

/-- C3 (amended): `get_comparison_kpis` uses
`round(delta / abs(baseline) * 100, 1)` — the absolute value of the
baseline, not the signed baseline — for a nonzero baseline and the signed
`100`, `0`, `-100` convention at baseline zero; `build_components_for_llm` uses
`(today - baseline)/baseline * 100` for a nonzero baseline but returns `0`
for a zero baseline even when today is nonzero.  In particular
`kpi_row_pct 100 0 = 100`, `kpi_row_pct 0 0 = 0`,
`kpi_row_pct 120 100 = 20`, `components_pct 0 0 = 0` and
`components_pct 120 100 = 20`. -/
theorem C3_pct_zero_handling :
    (∀ c p : ℝ, p ≠ 0 → kpi_row_pct c p = pyRound1 ((c - p) / |p| * 100)) ∧
    kpi_row_pct 100 0 = 100 ∧ kpi_row_pct 0 0 = 0 ∧ kpi_row_pct 120 100 = 20 ∧
    (∀ a b : ℝ, b ≠ 0 → components_pct a b = pyRound1 ((a - b) / b * 100)) ∧
    (∀ a : ℝ, components_pct a 0 = 0) ∧ components_pct 120 100 = 20 := by
  refine ⟨?_, ?_, ?_, ?_, ?_, ?_, ?_⟩
  · intro c p hp
    rw [kpi_row_pct, if_pos hp]
  · rw [kpi_row_pct, if_neg (by norm_num), if_pos (by norm_num)]
  · rw [kpi_row_pct, if_neg (by norm_num), if_neg (by norm_num), if_pos (by norm_num)]
  · have h20 : ((120 : ℝ) - 100) / |(100 : ℝ)| * 100 = 20 := by
      rw [abs_of_pos (by norm_num : (0:ℝ) < 100)]
      norm_num
    rw [kpi_row_pct, if_pos (by norm_num : (100:ℝ) ≠ 0), h20,
      pyRound1_eq _ 200 (by norm_num)]
    norm_num
  · intro a b hb
    rw [components_pct, if_pos hb]
  · intro a
    rw [components_pct, if_neg (by norm_num)]
    unfold pyRound1
    norm_num
  · have h20 : ((120 : ℝ) - 100) / 100 * 100 = 20 := by norm_num
    rw [components_pct, if_pos (by norm_num : (100:ℝ) ≠ 0), h20,
      pyRound1_eq _ 200 (by norm_num)]
    norm_num

/-- Witness for C3 applying the nonzero-baseline clauses at `(7, 2)` and
`(9, 3)`. -/
theorem C3_pct_zero_handling_witness :
    kpi_row_pct 7 2 = pyRound1 ((7 - 2) / |(2:ℝ)| * 100) ∧
    components_pct 9 3 = pyRound1 ((9 - 3) / 3 * 100) :=
  ⟨C3_pct_zero_handling.1 7 2 (by norm_num),
   C3_pct_zero_handling.2.2.2.2.1 9 3 (by norm_num)⟩

/-- C3 counterexample: the claim fails at the component assembler, where a
zero baseline with today `100` yields `0`, not `+100`; and it fails at
`get_comparison_kpis` for a negative baseline, where the code divides by
`abs(baseline)` and returns `+50` where `(today - baseline)/baseline * 100`
is `-50`. -/
theorem C3_counterexample :
    components_pct 100 0 = 0 ∧ (0 : ℝ) ≠ 100 ∧
    kpi_row_pct (-50) (-100) = 50 ∧
    ((-50 : ℝ) - (-100)) / (-100) * 100 = -50 ∧ (50 : ℝ) ≠ -50 := by
  refine ⟨?_, by norm_num, ?_, by norm_num, by norm_num⟩
  · rw [components_pct, if_neg (by norm_num)]
    unfold pyRound1
    norm_num
  · have habs : |(-100 : ℝ)| = 100 := by norm_num
    have h50 : ((-50 : ℝ) - (-100)) / |(-100 : ℝ)| * 100 = 50 := by
      rw [habs]; norm_num
    rw [kpi_row_pct, if_pos (by norm_num : (-100:ℝ) ≠ 0), h50,
      pyRound1_eq _ 500 (by norm_num)]
    norm_num

/-! ### Claim C6 -/

theorem exists_const_of_dedup_le_one {l : List α} (c0 : α) (h : l.dedup.length ≤ 1) :
    ∃ c, ∀ x ∈ l, x = c := by
  cases hd : l.dedup with
  | nil =>
    refine ⟨c0, fun x hx => ?_⟩
    exact absurd (List.mem_dedup.2 hx) (by simp [hd])
  | cons a t =>
    have ht : t = [] := by
      cases t with
      | nil => rfl
      | cons b t' => rw [hd] at h; simp at h
    subst ht
    refine ⟨a, fun x hx => ?_⟩
    have hx2 := List.mem_dedup.2 hx
    rw [hd] at hx2
    simpa using hx2

/-- A single-level column stays single-level through the binning step. -/
theorem binColumn_const {bins : ℕ} {col : Column} (h : colLevels col ≤ 1) :
    ∃ c, ∀ x ∈ binColumn bins col, x = c := by
  cases col with
  | cat vals =>
    simp only [colLevels] at h
    exact exists_const_of_dedup_le_one "" h
  | num vals =>
    simp only [colLevels] at h
    obtain ⟨c, hc⟩ := exists_const_of_dedup_le_one (0 : ℚ) h
    simp only [binColumn]
    by_cases hb : bins < vals.dedup.length
    · rw [if_pos hb]
      refine ⟨toString (binIndex (((qcutEdges vals bins).drop 1).dropLast) c), ?_⟩
      intro x hx
      obtain ⟨v, hv, rfl⟩ := List.mem_map.1 hx
      rw [hc v hv]
    · rw [if_neg hb]
      refine ⟨toString c, ?_⟩
      intro x hx
      obtain ⟨v, hv, rfl⟩ := List.mem_map.1 hx
      rw [hc v hv]

/-- C6 (amended): a variable column with a single level yields IV `0` from
`woe_iv` and raises no error.  (A degenerate label alone does not in general
force IV `0`; see the counterexample.) -/
theorem C6_single_level_iv_zero (name : String) (col : Column) (target : List Bool)
    (bins : ℕ) (h : colLevels col ≤ 1) :
    ∀ p ∈ woe_iv [(name, col)] target bins, p.2 = 0 := by
  intro p hp
  simp only [woe_iv, List.map_cons, List.map_nil, List.mem_singleton] at hp
  subst hp
  obtain ⟨c, hc⟩ := @binColumn_const bins col h
  exact woeIvVar_const hc target

/-- Witness for C6 at a concrete one-level column. -/
theorem C6_single_level_iv_zero_witness :
    colLevels (Column.cat ["u", "u"]) ≤ 1 ∧
    ∀ p ∈ woe_iv [("x", Column.cat ["u", "u"])] [true, false] 10, p.2 = 0 :=
  ⟨by decide, C6_single_level_iv_zero "x" (Column.cat ["u", "u"]) [true, false] 10 (by decide)⟩

/-- C6 counterexample: a label with a single distinct value (all `1`) does
not yield IV `0` — on the column `["a", "b", "b"]` with labels `[1, 1, 1]`,
`woe_iv` returns a strictly positive IV (the smoothing gives
`pct_E = (37.5, 62.5)` against `pct_NE = (50, 50)`). -/
theorem C6_counterexample_constant_label :
    (([true, true, true] : List Bool).dedup.length < 2) ∧
    ∀ p ∈ woe_iv [("x", Column.cat ["a", "b", "b"])] [true, true, true] 10, 0 < p.2 := by
  refine ⟨by decide, ?_⟩
  intro p hp
  simp only [woe_iv, List.map_cons, List.map_nil, List.mem_singleton] at hp
  subst hp
  show 0 < woeIvVar (binColumn 10 (Column.cat ["a", "b", "b"])) [true, true, true]
  have hbc : binColumn 10 (Column.cat ["a", "b", "b"]) = ["a", "b", "b"] := rfl
  rw [hbc]
  have hlev : levels [("a", true), ("b", true), ("b", true)] = ["a", "b"] := by decide
  have hga : groupE [("a", true), ("b", true), ("b", true)] "a" = 1 := by decide
  have hgb : groupE [("a", true), ("b", true), ("b", true)] "b" = 2 := by decide
  have hna : groupNE [("a", true), ("b", true), ("b", true)] "a" = 0 := by decide
  have hnb : groupNE [("a", true), ("b", true), ("b", true)] "b" = 0 := by decide
  have hpa : pctE [("a", true), ("b", true), ("b", true)] "a" = 75/2 := by
    norm_num [pctE, smE, totE, hlev, hga, hgb]
  have hpb : pctE [("a", true), ("b", true), ("b", true)] "b" = 125/2 := by
    norm_num [pctE, smE, totE, hlev, hga, hgb]
  have hqa : pctNE [("a", true), ("b", true), ("b", true)] "a" = 50 := by
    norm_num [pctNE, smNE, totNE, hlev, hna, hnb]
  have hqb : pctNE [("a", true), ("b", true), ("b", true)] "b" = 50 := by
    norm_num [pctNE, smNE, totNE, hlev, hna, hnb]
  unfold woeIvVar woeIvRows
  rw [show (["a", "b", "b"].zip [true, true, true]) =
    [("a", true), ("b", true), ("b", true)] from rfl]
  rw [hlev]
  simp only [List.map_cons, List.map_nil, List.sum_cons, List.sum_nil, add_zero,
    hpa, hpb, hqa, hqb]
  have t1 : 0 < ivTerm (75/2) 50 := ivTerm_pos_of_lt (by norm_num) (by norm_num)
  have t2 : 0 < ivTerm (125/2) 50 := ivTerm_pos_of_gt (by norm_num) (by norm_num)
  exact add_pos t1 t2

/-! ### Claim C4 -/

/-- C4: every ranking returned by `get_iv_ranking` is sorted descending by
IV, and among equal IVs the registration order (channel, ad, influencer,
then the emitted cost factors) of `preRanking` is preserved: any
equal-IV pair that appears in registration order still appears in that
order in the ranking. -/
theorem C4_ranking_sorted_stable (items : ItemsTable) (adj : AdjTable) (today compare : ℤ) :
    List.Sorted rankGE (get_iv_ranking items adj today compare) ∧
    ∀ p q : String × ℝ, p.2 = q.2 →
      List.Sublist [p, q] (preRanking items adj today compare) →
      List.Sublist [p, q] (get_iv_ranking items adj today compare) := by
  constructor
  · haveI h1 : IsTotal (String × ℝ) rankGE := ⟨fun a b => le_total b.2 a.2⟩
    haveI h2 : IsTrans (String × ℝ) rankGE := ⟨fun a b c hab hbc => le_trans hbc hab⟩
    exact List.sorted_insertionSort rankGE _
  · intro p q hpq hsub
    exact List.pair_sublist_insertionSort (le_of_eq hpq.symm) hsub

/-- Witness for C4 on empty tables, where all three membership IVs are `0`:
the channel/ad pair of equal IVs keeps its registration order. -/
theorem C4_ranking_sorted_stable_witness :
    List.Sorted rankGE (get_iv_ranking itemsEmpty adjEmpty 1 0) ∧
    List.Sublist [("채널/비채널 (매출)", (0:ℝ)), ("광고/비광고 (매출)", (0:ℝ))]
      (get_iv_ranking itemsEmpty adjEmpty 1 0) := by
  refine ⟨(C4_ranking_sorted_stable itemsEmpty adjEmpty 1 0).1, ?_⟩
  refine (C4_ranking_sorted_stable itemsEmpty adjEmpty 1 0).2 _ _ rfl ?_
  have hpre : preRanking itemsEmpty adjEmpty 1 0 =
      [("채널/비채널 (매출)", (0:ℝ)), ("광고/비광고 (매출)", (0:ℝ)),
       ("인플루언서/비인플루언서 (매출)", (0:ℝ))] := rfl
  rw [hpre]
  exact List.Sublist.cons₂ _ (List.Sublist.cons₂ _ (List.nil_sublist _))

/-! ### Claim C8 -/

theorem sorted_take_detailGE {κ : Type} (l : List (κ × ℚ × ℚ)) (n : ℕ) :
    List.Sorted detailGE ((List.insertionSort detailGE l).take n) := by
  haveI h1 : IsTotal (κ × ℚ × ℚ) detailGE := ⟨fun a b => le_total b.2.1 a.2.1⟩
  haveI h2 : IsTrans (κ × ℚ × ℚ) detailGE := ⟨fun a b c hab hbc => le_trans hbc hab⟩
  exact List.Pairwise.sublist (List.take_sublist n _) (List.sorted_insertionSort detailGE l)

theorem sorted_take_detailLE {κ : Type} (l : List (κ × ℚ × ℚ)) (n : ℕ) :
    List.Sorted detailLE ((List.insertionSort detailLE l).take n) := by
  haveI h1 : IsTotal (κ × ℚ × ℚ) detailLE := ⟨fun a b => le_total a.2.1 b.2.1⟩
  haveI h2 : IsTrans (κ × ℚ × ℚ) detailLE := ⟨fun a b c hab hbc => le_trans hab hbc⟩
  exact List.Pairwise.sublist (List.take_sublist n _) (List.sorted_insertionSort detailLE l)

/-- C8 (amended): revenue-like detail tables (channel, ad, influencer via
`_detail_table_today_base`) are sorted by today's value descending, and the
refund detail is sorted ascending — but the coupon detail is sorted
**descending** (the source passes `ascending=False`), not ascending as the
claim states. -/
theorem C8_detail_sort_directions (items : ItemsTable) (adj : AdjTable) (today compare : ℤ)
    (idOf : ItemRow → Option String) (hasCol : Bool) (topN : ℕ) :
    List.Sorted detailGE (detail_table_today_base items today compare idOf hasCol topN) ∧
    List.Sorted detailLE (refund_detail_top5 adj today compare topN) ∧
    List.Sorted detailGE (coupon_detail_top5 items today compare topN) := by
  refine ⟨?_, ?_, ?_⟩
  · unfold detail_table_today_base
    by_cases h : hasCol = true
    · rw [if_pos h]
      exact sorted_take_detailGE _ _
    · rw [if_neg h]
      exact List.sorted_nil
  · unfold refund_detail_top5
    exact sorted_take_detailLE _ _
  · unfold coupon_detail_top5
    by_cases h : (items.hasDiscount && items.hasCouponId) = true
    · rw [if_pos h]
      exact sorted_take_detailGE _ _
    · rw [if_neg h]
      exact List.sorted_nil

/-- C8 counterexample: on two coupons with today costs `5` and `9`, the
coupon detail table comes out `[9, 5]` — descending — so it is not sorted
ascending by today's value as the claim states. -/
theorem C8_counterexample_coupon_descending :
    coupon_detail_top5 itemsC8 1 0 5 = [(some "b", (9:ℚ), (0:ℚ)), (some "a", 5, 0)] ∧
    ¬ List.Sorted detailLE (coupon_detail_top5 itemsC8 1 0 5) := by
  have heval : coupon_detail_top5 itemsC8 1 0 5 =
      [(some "b", (9:ℚ), (0:ℚ)), (some "a", 5, 0)] := by
    norm_num [coupon_detail_top5, itemsC8, List.insertionSort, List.orderedInsert,
      detailGE, List.dedup_cons_of_not_mem, List.dedup_cons_of_mem, List.filter_cons,
      List.sum_cons, List.sum_nil, show ¬("b" : String) = "a" from by decide,
      show ¬("a" : String) = "b" from by decide]
  refine ⟨heval, ?_⟩
  rw [heval]
  intro h
  have h2 := List.rel_of_sorted_cons h (some "a", 5, 0) (by simp)
  simp only [detailLE] at h2
  norm_num at h2

/-! ### Claim C5 -/

/-- C5: on the diamond registry, one `compute_metric "D"` call invokes each
compute function — in particular `A`'s — exactly once (the call log is
`["D", "C", "B", "A"]`); and in general, within one `compute_metric` or
`compute_category` invocation over an acyclic registry, the call log is
duplicate-free, i.e. every reachable metric's compute function is called at
most once. -/
theorem C5_diamond_memoized_once :
    (compute_metric diamondReg 10 "D" =
      .ok (⟨["value"]⟩,
        [("D", ⟨["value"]⟩), ("C", ⟨["value"]⟩), ("B", ⟨["value"]⟩), ("A", ⟨["value"]⟩)],
        ["D", "C", "B", "A"]) ∧
      (["D", "C", "B", "A"] : List String).count "A" = 1) ∧
    (∀ (reg : Registry) (rank : String → ℕ) (fuel : ℕ) (k : String) df c' log,
      Ranked reg rank → compute_metric reg fuel k = .ok (df, c', log) → log.Nodup) ∧
    (∀ (reg : Registry) (rank : String → ℕ) (fuel : ℕ) (keys : List String) out c' log,
      Ranked reg rank → compute_category reg fuel keys = .ok (out, c', log) → log.Nodup) := by
  refine ⟨⟨rfl, by decide⟩, ?_, ?_⟩
  · intro reg rank fuel k df c' log hR h
    exact (compute_recursive_inv hR fuel k [] df c' log h).2.2
  · intro reg rank fuel keys out c' log hR h
    exact (depsFold_inv reg (compute_recursive reg fuel)
      (fun k' cache' df' c'' log' h' => compute_recursive_inv hR fuel k' cache' df' c'' log' h')
      keys [] out c' log h).2.2

/-- Witness for C5 applying the general duplicate-freeness clause to the
diamond run. -/
theorem C5_diamond_memoized_once_witness : (["D", "C", "B", "A"] : List String).Nodup :=
  C5_diamond_memoized_once.2.1 diamondReg diamondRank 10 "D" ⟨["value"]⟩
    [("D", ⟨["value"]⟩), ("C", ⟨["value"]⟩), ("B", ⟨["value"]⟩), ("A", ⟨["value"]⟩)]
    ["D", "C", "B", "A"] (by unfold Ranked; decide) rfl

/-! ### Claim C9 -/

/-- C9: `compute_metric` errors whenever any transitively required key —
the requested key included — is unregistered (with bounded fuel standing in
for Python's unbounded recursion); a successful run only ever passes the
`value`-column check, so its result and every cached frame have a `value`
column (a compute result without one raises instead); and on a registered
acyclic graph whose compute functions all return a `value` column it
succeeds, raising neither error, once the fuel exceeds the requested key's
rank. -/
theorem C9_registry_error_contract :
    (∀ (reg : Registry) (fuel : ℕ) (k j : String),
      Reaches reg k j → List.lookup j reg = none →
      ∃ e, compute_metric reg fuel k = .error e) ∧
    (∀ (reg : Registry) (fuel : ℕ) (k : String) df c' log,
      compute_metric reg fuel k = .ok (df, c', log) →
      df.hasValue = true ∧ ∀ k0 df0, List.lookup k0 c' = some df0 → df0.hasValue = true) ∧
    (∀ (reg : Registry) (rank : String → ℕ), Ranked reg rank → Complete reg → AllValue reg →
      ∀ (k : String) (fuel : ℕ), (List.lookup k reg).isSome → rank k < fuel →
      ∃ df c' log, compute_metric reg fuel k = .ok (df, c', log)) := by
  have hGempty : ∀ reg : Registry, GoodCache reg [] := by
    intro reg k df hk
    simp [List.lookup] at hk
  refine ⟨?_, ?_, ?_⟩
  · intro reg fuel k j hre hj
    rcases h : compute_metric reg fuel k with e | ⟨df, c', log⟩
    · exact ⟨e, rfl⟩
    · obtain ⟨hG', hsome, _, _⟩ :=
        compute_recursive_good reg fuel k [] df c' log h (hGempty reg)
      have hreg := good_reaches_registered hG' hre hsome
      rw [hj] at hreg
      exact absurd hreg (by simp)
  · intro reg fuel k df c' log h
    obtain ⟨hG', _, hval, _⟩ :=
      compute_recursive_good reg fuel k [] df c' log h (hGempty reg)
    exact ⟨hval, fun k0 df0 hk0 => (hG' k0 df0 hk0).2⟩
  · intro reg rank hR hC hV k fuel hreg hlt
    exact compute_recursive_ok hR hC hV fuel k [] hreg hlt

/-- Witness for C9: the success clause applied to the diamond registry. -/
theorem C9_registry_error_contract_witness :
    ∃ df c' log, compute_metric diamondReg 3 "D" = .ok (df, c', log) :=
  C9_registry_error_contract.2.2 diamondReg diamondRank (by unfold Ranked; decide)
    (by unfold Complete; decide)
    (by
      intro p hp inp
      simp only [diamondReg, List.mem_cons, List.not_mem_nil, or_false] at hp
      rcases hp with rfl | rfl | rfl | rfl <;> rfl)
    "D" 3 (by decide) (by decide)

/-! ### Claim C7 -/

/-- Membership in the sorted ranking coincides with membership in the
registration-order list. -/
theorem mem_get_iv_ranking_iff {items : ItemsTable} {adj : AdjTable}
    {today compare : ℤ} {a : String × ℝ} :
    a ∈ get_iv_ranking items adj today compare ↔ a ∈ preRanking items adj today compare :=
  (List.perm_insertionSort rankGE _).mem_iff

/-- A baseline slice with fewer than two rows hits the `len(bench) < 2`
guard (or the empty-slice guard) and yields IV `0`. -/
theorem iv_cost_by_decile_bench_small {rows : List (ℤ × ℚ)} {today compare : ℤ}
    {bins : ℕ}
    (h : (rows.filter (fun r => decide (r.1 = compare))).length < 2) :
    iv_cost_by_decile rows today compare bins = 0 := by
  simp only [iv_cost_by_decile]
  by_cases hs : (rows.filter (fun r => decide (r.1 = today) || decide (r.1 = compare))).isEmpty
  · rw [if_pos hs]
  · rw [if_neg hs]
    have hff : (rows.filter (fun r => decide (r.1 = today) || decide (r.1 = compare))).filter
        (fun r => decide (r.1 = compare)) = rows.filter (fun r => decide (r.1 = compare)) := by
      rw [List.filter_filter]
      refine List.filter_congr ?_
      intro a _
      by_cases hc : a.1 = compare <;> simp [hc]
    have hlen : (((rows.filter (fun r => decide (r.1 = today) || decide (r.1 = compare))).filter
        (fun r => decide (r.1 = compare))).map Prod.snd).length < 2 := by
      rw [List.length_map, hff]
      exact h
    rw [if_pos hlen]

/-- With an `amount` column and a degenerate baseline slice, the refund
factor still contributes, with IV `0`. -/
theorem refund_zero_mem_preRanking {items : ItemsTable} {adj : AdjTable}
    {today compare : ℤ} (hA : adj.hasAmount = true)
    (h : (adj.rows.filter (fun r => decide (r.d = compare))).length < 2) :
    ("환불액 (비용)", (0:ℝ)) ∈ preRanking items adj today compare := by
  have hmaplen : ((adj.rows.map (fun r => (r.d, r.amount))).filter
      (fun r => decide (r.1 = compare))).length =
      (adj.rows.filter (fun r => decide (r.d = compare))).length := by
    rw [List.filter_map, List.length_map]
    rfl
  have hzero : iv_cost_by_decile (adj.rows.map (fun r => (r.d, r.amount))) today compare 10 = 0 :=
    iv_cost_by_decile_bench_small (by rw [hmaplen]; exact h)
  have hmem : ("환불액", (0:ℝ)) ∈ compute_iv_for_cost_columns items adj today compare := by
    unfold compute_iv_for_cost_columns
    refine List.mem_append.2 (Or.inr ?_)
    rw [hA]
    simp [hzero]
  unfold preRanking
  refine List.mem_append.2 (Or.inr ?_)
  exact List.mem_map.2 ⟨("환불액", 0), hmem, rfl⟩

/-- With the `discount_amount` column absent, the coupon factor is omitted
from the registration list entirely. -/
theorem coupon_not_mem_preRanking {items : ItemsTable} {adj : AdjTable}
    {today compare : ℤ} (hD : items.hasDiscount = false) (iv : ℝ) :
    ("쿠폰비용 (비용)", iv) ∉ preRanking items adj today compare := by
  have h1 : ("쿠폰비용 (비용)" : String) ≠ "채널/비채널 (매출)" := by decide
  have h2 : ("쿠폰비용 (비용)" : String) ≠ "광고/비광고 (매출)" := by decide
  have h3 : ("쿠폰비용 (비용)" : String) ≠ "인플루언서/비인플루언서 (매출)" := by decide
  have h4 : ("쿠폰비용 (비용)" : String) ≠ "환불액" ++ " (비용)" := by decide
  intro hmem
  unfold preRanking compute_iv_for_cost_columns at hmem
  rw [hD] at hmem
  by_cases hA : adj.hasAmount = true
  · rw [hA] at hmem
    simp [Prod.ext_iff, h1, h2, h3, h4] at hmem
  · have hA' : adj.hasAmount = false := by simpa using hA
    rw [hA'] at hmem
    simp [Prod.ext_iff, h1, h2, h3] at hmem

/-- C7 (amended): degenerate statistics (e.g. a baseline slice with fewer
than two rows) are recovered locally as an IV `0` entry for that factor,
and the ranking over the other factors is always produced — it always
contains the three membership factors and one entry per emitted cost
factor.  A cost column that is entirely absent, however, does not
contribute an IV `0` entry: its factor is omitted from the ranking (the
source skips it before any exception could arise). -/
theorem C7_degenerate_and_absent_factors (items : ItemsTable) (adj : AdjTable)
    (today compare : ℤ) :
    (adj.hasAmount = true →
      (adj.rows.filter (fun r => decide (r.d = compare))).length < 2 →
      ("환불액 (비용)", (0:ℝ)) ∈ get_iv_ranking items adj today compare) ∧
    (items.hasDiscount = false →
      ∀ iv : ℝ, ("쿠폰비용 (비용)", iv) ∉ get_iv_ranking items adj today compare) ∧
    (get_iv_ranking items adj today compare).length =
      3 + (compute_iv_for_cost_columns items adj today compare).length ∧
    (∃ iv, ("채널/비채널 (매출)", iv) ∈ get_iv_ranking items adj today compare) ∧
    (∃ iv, ("광고/비광고 (매출)", iv) ∈ get_iv_ranking items adj today compare) ∧
    (∃ iv, ("인플루언서/비인플루언서 (매출)", iv) ∈ get_iv_ranking items adj today compare) := by
  refine ⟨?_, ?_, ?_, ?_, ?_, ?_⟩
  · intro hA h
    exact mem_get_iv_ranking_iff.2 (refund_zero_mem_preRanking hA h)
  · intro hD iv hmem
    exact coupon_not_mem_preRanking hD iv (mem_get_iv_ranking_iff.1 hmem)
  · rw [get_iv_ranking, List.length_insertionSort]
    simp [preRanking]
    omega
  · exact ⟨compute_iv_binary items today compare (fun r => r.channel) items.hasChannel,
      mem_get_iv_ranking_iff.2 (List.mem_append.2 (Or.inl (by simp)))⟩
  · exact ⟨compute_iv_binary items today compare (fun r => r.ad) items.hasAd,
      mem_get_iv_ranking_iff.2 (List.mem_append.2 (Or.inl
        (List.mem_cons_of_mem _ (by simp))))⟩
  · exact ⟨compute_iv_binary items today compare (fun r => r.influencer) items.hasInfluencer,
      mem_get_iv_ranking_iff.2 (List.mem_append.2 (Or.inl
        (List.mem_cons_of_mem _ (List.mem_cons_of_mem _ (by simp)))))⟩

/-- Witness for C7: with `discount_amount` absent and a one-row baseline
adjustment slice, the refund factor appears with IV `0` and the coupon
factor is absent. -/
theorem C7_degenerate_and_absent_factors_witness :
    ("환불액 (비용)", (0:ℝ)) ∈ get_iv_ranking itemsEmpty adjOneBench 1 0 ∧
    ∀ iv : ℝ, ("쿠폰비용 (비용)", iv) ∉ get_iv_ranking itemsEmpty adjOneBench 1 0 :=
  ⟨(C7_degenerate_and_absent_factors itemsEmpty adjOneBench 1 0).1 rfl (by decide),
   (C7_degenerate_and_absent_factors itemsEmpty adjOneBench 1 0).2.1 rfl⟩

/-- C7 counterexample: when the cost column is entirely absent
(`itemsEmpty` has no `discount_amount`), the coupon factor does not
"contribute IV = 0" — no entry for it appears in the ranking at all, at any
IV — while the rest of the ranking is still produced (the refund factor is
present). -/
theorem C7_counterexample_absent_cost_column :
    itemsEmpty.hasDiscount = false ∧
    (∀ iv : ℝ, ("쿠폰비용 (비용)", iv) ∉ get_iv_ranking itemsEmpty adjOneBench 1 0) ∧
    ("환불액 (비용)", (0:ℝ)) ∈ get_iv_ranking itemsEmpty adjOneBench 1 0 := by
  refine ⟨rfl, ?_, ?_⟩
  · intro iv hmem
    exact coupon_not_mem_preRanking rfl iv (mem_get_iv_ranking_iff.1 hmem)
  · exact mem_get_iv_ranking_iff.2 (refund_zero_mem_preRanking rfl (by decide))

/-! ### Claim C2 -/

theorem c2_sub_eval : costRowsC2.filter
    (fun r => decide (r.1 = (1:ℤ)) || decide (r.1 = (0:ℤ))) = costRowsC2 := by
  simp [costRowsC2]

theorem c2_bench_eval : (costRowsC2.filter (fun r => decide (r.1 = (0:ℤ)))).map Prod.snd =
    [10, 10, 10, 90, 90, 90] := by
  simp [costRowsC2]

theorem c2_sorted_bench : List.insertionSort (· ≤ ·) ([10, 10, 10, 90, 90, 90] : List ℚ) =
    [10, 10, 10, 90, 90, 90] := by
  norm_num [List.insertionSort, List.orderedInsert]

theorem c2_interp_half : interpAt [10, 10, 10, 90, 90, 90] (1/2) = 10 := by
  have hf : (⌊(1/2 : ℚ)⌋ : ℤ) = 0 := by norm_num
  norm_num [interpAt, hf, List.getD]

theorem c2_interp_one : interpAt [10, 10, 10, 90, 90, 90] 1 = 10 := by
  have hf : (⌊(1 : ℚ)⌋ : ℤ) = 1 := by norm_num
  have ht : ((1:ℤ)).toNat = 1 := rfl
  norm_num [interpAt, hf, ht, List.getD]

theorem c2_interp_three_half : interpAt [10, 10, 10, 90, 90, 90] (3/2) = 10 := by
  have hf : (⌊(3/2 : ℚ)⌋ : ℤ) = 1 := by norm_num
  have ht : ((1:ℤ)).toNat = 1 := rfl
  norm_num [interpAt, hf, ht, List.getD]

theorem c2_interp_two : interpAt [10, 10, 10, 90, 90, 90] 2 = 10 := by
  have hf : (⌊(2 : ℚ)⌋ : ℤ) = 2 := by norm_num
  have ht : ((2:ℤ)).toNat = 2 := rfl
  norm_num [interpAt, hf, ht, List.getD]

theorem c2_interp_five_half : interpAt [10, 10, 10, 90, 90, 90] (5/2) = 50 := by
  have hf : (⌊(5/2 : ℚ)⌋ : ℤ) = 2 := by norm_num
  have ht : ((2:ℤ)).toNat = 2 := rfl
  norm_num [interpAt, hf, ht, List.getD]

theorem c2_interp_three : interpAt [10, 10, 10, 90, 90, 90] 3 = 90 := by
  have hf : (⌊(3 : ℚ)⌋ : ℤ) = 3 := by norm_num
  have ht : ((3:ℤ)).toNat = 3 := rfl
  norm_num [interpAt, hf, ht, List.getD]

theorem c2_interp_seven_half : interpAt [10, 10, 10, 90, 90, 90] (7/2) = 90 := by
  have hf : (⌊(7/2 : ℚ)⌋ : ℤ) = 3 := by norm_num
  have ht : ((3:ℤ)).toNat = 3 := rfl
  norm_num [interpAt, hf, ht, List.getD]

theorem c2_interp_four : interpAt [10, 10, 10, 90, 90, 90] 4 = 90 := by
  have hf : (⌊(4 : ℚ)⌋ : ℤ) = 4 := by norm_num
  have ht : ((4:ℤ)).toNat = 4 := rfl
  norm_num [interpAt, hf, ht, List.getD]

theorem c2_interp_nine_half : interpAt [10, 10, 10, 90, 90, 90] (9/2) = 90 := by
  have hf : (⌊(9/2 : ℚ)⌋ : ℤ) = 4 := by norm_num
  have ht : ((4:ℤ)).toNat = 4 := rfl
  norm_num [interpAt, hf, ht, List.getD]

/-- With `bins = 2` the single inner probe is the median `50`, one
breakpoint only: the `len(quantiles) < 2` guard fires. -/
theorem c2_bins2_quantiles : npUnique (npPercentile [10, 10, 10, 90, 90, 90]
    ((List.range (2 - 1)).map (fun (i : ℕ) => 100 * ((i : ℚ) + 1) / ((2:ℕ) : ℚ)))) = [50] := by
  have hprobes : ((List.range (2 - 1)).map (fun (i : ℕ) => 100 * ((i : ℚ) + 1) / ((2:ℕ) : ℚ))) =
      [50] := by norm_num [List.range_succ]
  rw [hprobes]
  have hperc : npPercentile [10, 10, 10, 90, 90, 90] [50] = [50] := by
    simp only [npPercentile, c2_sorted_bench, List.map_cons, List.map_nil,
      List.length_cons, List.length_nil]
    norm_num
    exact c2_interp_five_half
  rw [hperc]
  norm_num [npUnique, List.insertionSort, List.orderedInsert, List.dedup_cons_of_not_mem]

/-- With `bins = 10` the deciles of the baseline are `10 × 4, 50, 90 × 4`,
three distinct breakpoints. -/
theorem c2_bins10_quantiles : npUnique (npPercentile [10, 10, 10, 90, 90, 90]
    ((List.range (10 - 1)).map (fun (i : ℕ) => 100 * ((i : ℚ) + 1) / ((10:ℕ) : ℚ)))) =
    [10, 50, 90] := by
  have hprobes : ((List.range (10 - 1)).map (fun (i : ℕ) => 100 * ((i : ℚ) + 1) / ((10:ℕ) : ℚ))) =
      [10, 20, 30, 40, 50, 60, 70, 80, 90] := by norm_num [List.range_succ]
  rw [hprobes]
  have hperc : npPercentile [10, 10, 10, 90, 90, 90] [10, 20, 30, 40, 50, 60, 70, 80, 90] =
      [10, 10, 10, 10, 50, 90, 90, 90, 90] := by
    simp only [npPercentile, c2_sorted_bench, List.map_cons, List.map_nil,
      List.length_cons, List.length_nil]
    norm_num
    exact ⟨c2_interp_half, c2_interp_one, c2_interp_three_half, c2_interp_two,
      c2_interp_five_half, c2_interp_three, c2_interp_seven_half, c2_interp_four,
      c2_interp_nine_half⟩
  rw [hperc]
  have hsort : List.insertionSort (· ≤ ·) ([10, 10, 10, 10, 50, 90, 90, 90, 90] : List ℚ) =
      [10, 10, 10, 10, 50, 90, 90, 90, 90] := by
    norm_num [List.insertionSort, List.orderedInsert]
  rw [npUnique, hsort]
  rw [List.dedup_cons_of_mem (show (10:ℚ) ∈ [10, 10, 10, 50, 90, 90, 90, 90] by norm_num),
      List.dedup_cons_of_mem (show (10:ℚ) ∈ [10, 10, 50, 90, 90, 90, 90] by norm_num),
      List.dedup_cons_of_mem (show (10:ℚ) ∈ [10, 50, 90, 90, 90, 90] by norm_num),
      List.dedup_cons_of_not_mem (show (10:ℚ) ∉ [50, 90, 90, 90, 90] by norm_num),
      List.dedup_cons_of_not_mem (show (50:ℚ) ∉ [90, 90, 90, 90] by norm_num),
      List.dedup_cons_of_mem (show (90:ℚ) ∈ [90, 90, 90] by norm_num),
      List.dedup_cons_of_mem (show (90:ℚ) ∈ [90, 90] by norm_num),
      List.dedup_cons_of_mem (show (90:ℚ) ∈ [90] by norm_num),
      List.dedup_cons_of_not_mem (show (90:ℚ) ∉ ([] : List ℚ) by norm_num),
      List.dedup_nil]

theorem c2_bins2_zero : iv_cost_by_decile costRowsC2 1 0 2 = 0 := by
  simp only [iv_cost_by_decile, c2_sub_eval, c2_bench_eval]
  rw [if_neg (show ¬ costRowsC2.isEmpty = true by simp [costRowsC2])]
  rw [if_neg (by norm_num : ¬ ([10, 10, 10, 90, 90, 90] : List ℚ).length < 2)]
  rw [c2_bins2_quantiles, if_pos (by norm_num)]

/-- C2 counterexample: on the scenario input with `bins = 2` the
baseline-anchored cost binning returns exactly `0.0` (the breakpoint guard
fires), not a strictly positive IV. -/
theorem C2_counterexample_bins2 :
    iv_cost_by_decile costRowsC2 1 0 2 = 0 ∧
    ¬ 0 < iv_cost_by_decile costRowsC2 1 0 2 :=
  ⟨c2_bins2_zero, by rw [c2_bins2_zero]; exact lt_irrefl 0⟩

theorem c2_bins10_eq : iv_cost_by_decile costRowsC2 1 0 10 =
    woeIvVar [1, 1, 1, 1, 1, 1, 0, 0, 0, 2, 2, 2]
      [true, true, true, true, true, true, false, false, false, false, false, false] := by
  simp only [iv_cost_by_decile, c2_sub_eval, c2_bench_eval]
  rw [if_neg (show ¬ costRowsC2.isEmpty = true by simp [costRowsC2])]
  rw [if_neg (by norm_num : ¬ ([10, 10, 10, 90, 90, 90] : List ℚ).length < 2)]
  rw [c2_bins10_quantiles, if_neg (by norm_num)]
  have hxs : costRowsC2.map (fun r => binIndex [10, 50, 90] r.2) =
      [1, 1, 1, 1, 1, 1, 0, 0, 0, 2, 2, 2] := by
    norm_num [costRowsC2, binIndex, List.filter]
  have hys : costRowsC2.map (fun r => decide (r.1 = (1:ℤ))) =
      [true, true, true, true, true, true, false, false, false, false, false, false] := by
    simp [costRowsC2]
  rw [hxs, hys]

/-- C2 (amended): on the scenario input the baseline-anchored binning with
`bins = 2` returns exactly `0.0` without error (only one breakpoint
survives, so the fewer-than-two-breakpoints guard fires); with the
production bin count `bins = 10` it completes without error and the
day-label IV is strictly positive. -/
theorem C2_baseline_anchored_binning :
    iv_cost_by_decile costRowsC2 1 0 2 = 0 ∧
    0 < iv_cost_by_decile costRowsC2 1 0 10 := by
  refine ⟨c2_bins2_zero, ?_⟩
  rw [c2_bins10_eq]
  have hlev : levels [((1:ℕ), true), (1, true), (1, true), (1, true), (1, true), (1, true),
      (0, false), (0, false), (0, false), (2, false), (2, false), (2, false)] = [1, 0, 2] := by
    decide
  have hg1 : groupE [((1:ℕ), true), (1, true), (1, true), (1, true), (1, true), (1, true),
      (0, false), (0, false), (0, false), (2, false), (2, false), (2, false)] 1 = 6 := by decide
  have hg0 : groupE [((1:ℕ), true), (1, true), (1, true), (1, true), (1, true), (1, true),
      (0, false), (0, false), (0, false), (2, false), (2, false), (2, false)] 0 = 0 := by decide
  have hg2 : groupE [((1:ℕ), true), (1, true), (1, true), (1, true), (1, true), (1, true),
      (0, false), (0, false), (0, false), (2, false), (2, false), (2, false)] 2 = 0 := by decide
  have hn1 : groupNE [((1:ℕ), true), (1, true), (1, true), (1, true), (1, true), (1, true),
      (0, false), (0, false), (0, false), (2, false), (2, false), (2, false)] 1 = 0 := by decide
  have hn0 : groupNE [((1:ℕ), true), (1, true), (1, true), (1, true), (1, true), (1, true),
      (0, false), (0, false), (0, false), (2, false), (2, false), (2, false)] 0 = 3 := by decide
  have hn2 : groupNE [((1:ℕ), true), (1, true), (1, true), (1, true), (1, true), (1, true),
      (0, false), (0, false), (0, false), (2, false), (2, false), (2, false)] 2 = 3 := by decide
  have hp1 : pctE [((1:ℕ), true), (1, true), (1, true), (1, true), (1, true), (1, true),
      (0, false), (0, false), (0, false), (2, false), (2, false), (2, false)] 1 = 260/3 := by
    norm_num [pctE, smE, totE, hlev, hg1, hg0, hg2]
  have hp0 : pctE [((1:ℕ), true), (1, true), (1, true), (1, true), (1, true), (1, true),
      (0, false), (0, false), (0, false), (2, false), (2, false), (2, false)] 0 = 20/3 := by
    norm_num [pctE, smE, totE, hlev, hg1, hg0, hg2]
  have hp2 : pctE [((1:ℕ), true), (1, true), (1, true), (1, true), (1, true), (1, true),
      (0, false), (0, false), (0, false), (2, false), (2, false), (2, false)] 2 = 20/3 := by
    norm_num [pctE, smE, totE, hlev, hg1, hg0, hg2]
  have hq1 : pctNE [((1:ℕ), true), (1, true), (1, true), (1, true), (1, true), (1, true),
      (0, false), (0, false), (0, false), (2, false), (2, false), (2, false)] 1 = 20/3 := by
    norm_num [pctNE, smNE, totNE, hlev, hn1, hn0, hn2]
  have hq0 : pctNE [((1:ℕ), true), (1, true), (1, true), (1, true), (1, true), (1, true),
      (0, false), (0, false), (0, false), (2, false), (2, false), (2, false)] 0 = 140/3 := by
    norm_num [pctNE, smNE, totNE, hlev, hn1, hn0, hn2]
  have hq2 : pctNE [((1:ℕ), true), (1, true), (1, true), (1, true), (1, true), (1, true),
      (0, false), (0, false), (0, false), (2, false), (2, false), (2, false)] 2 = 140/3 := by
    norm_num [pctNE, smNE, totNE, hlev, hn1, hn0, hn2]
  unfold woeIvVar woeIvRows
  rw [show (([1, 1, 1, 1, 1, 1, 0, 0, 0, 2, 2, 2] : List ℕ).zip
      [true, true, true, true, true, true, false, false, false, false, false, false]) =
      [((1:ℕ), true), (1, true), (1, true), (1, true), (1, true), (1, true),
       (0, false), (0, false), (0, false), (2, false), (2, false), (2, false)] from rfl]
  rw [hlev]
  simp only [List.map_cons, List.map_nil, List.sum_cons, List.sum_nil, add_zero,
    hp1, hp0, hp2, hq1, hq0, hq2]
  have t1 : 0 < ivTerm (260/3) (20/3) := ivTerm_pos_of_gt (by norm_num) (by norm_num)
  have t0 : 0 < ivTerm (20/3) (140/3) := ivTerm_pos_of_lt (by norm_num) (by norm_num)
  exact add_pos t1 (add_pos t0 t0)

end Causely
